import Mathlib

/-!
Shallow embedding of the `sdl2_mt` core (src/lib.rs): the owner-loop message
handler `sdl_handler`, its event-redistribution buffer algorithm, the window
registry bookkeeping, and the public `Sdl2Mt` handle operations, together with
proofs of the specified properties.
-/

namespace Sdl2MtModel

/-! ## Event redistribution buffer (the `HandleEvent` arm of `sdl_handler`)

`E` is the abstract type of SDL events.  The buffer `unhandled_events` is a
`LinkedList<Event>` in the source, modelled as a `List E` with the head being
the front (oldest entry).  The event-handler callback is modelled as a pure
function `E → Bool` (`true` = the handler claimed the event). -/

/-- Phase 1 of the `HandleEvent` arm (src/lib.rs lines 57-75): the
`for event_num in 0..len` loop.  The first argument of the recursion is the
number of remaining iterations (`len - event_num`), the second is `event_num`.
Each iteration pops the front entry (`pop_front().unwrap()` — a pop from an
empty list is the panic, modelled as `none`), invokes the handler, and pushes
the entry back iff it was unclaimed and `event_num >= num_events_to_drop`.
Returns the final buffer and the trace of events delivered to the handler. -/
def phase1Loop {E : Type} (handle_event : E → Bool) (num_events_to_drop : Int) :
    Nat → Nat → List E → Option (List E × List E)
  | 0, _, buf => some (buf, [])
  | n + 1, event_num, buf =>
    match buf with
    | [] => none
    | event :: rest =>
      let buf' :=
        if handle_event event then rest
        else if num_events_to_drop ≤ (event_num : Int) then rest ++ [event]
        else rest
      match phase1Loop handle_event num_events_to_drop n (event_num + 1) buf' with
      | none => none
      | some (bufF, tr) => some (bufF, event :: tr)

/-- Phase 2 of the `HandleEvent` arm (src/lib.rs lines 77-82): the
`for event in events.poll_iter()` loop.  `polled` is the list of freshly
polled events in arrival order; each is offered to the handler and appended to
the buffer iff unclaimed.  Returns the final buffer and the delivery trace. -/
def phase2Loop {E : Type} (handle_event : E → Bool) :
    List E → List E → List E × List E
  | [], buf => (buf, [])
  | event :: rest, buf =>
    let buf' := if handle_event event then buf else buf ++ [event]
    let res := phase2Loop handle_event rest buf'
    (res.1, event :: res.2)

/-- One complete `HandleEvent` cycle (src/lib.rs lines 55-87):
`len` is the buffer length at cycle start, `num_events_to_drop = len - 2000`
(computed in `isize`, modelled as `Int`), then Phase 1 over the backlog and
Phase 2 over the freshly polled events.  Returns `none` exactly when the
`pop_front().unwrap()` of Phase 1 would panic; otherwise the new buffer and
the full delivery trace of the cycle. -/
def handleEventCycle {E : Type} (handle_event : E → Bool) (polled : List E)
    (unhandled_events : List E) : Option (List E × List E) :=
  let len := unhandled_events.length
  let num_events_to_drop : Int := (len : Int) - 2000
  match phase1Loop handle_event num_events_to_drop len 0 unhandled_events with
  | none => none
  | some (buf1, tr1) =>
    let res := phase2Loop handle_event polled buf1
    some (res.1, tr1 ++ res.2)

/-- A sequence of `HandleEvent` cycles: each element of `cycles` is the
handler and the freshly polled events of one cycle.  Returns the final buffer
and the per-cycle delivery traces. -/
def runCycles {E : Type} :
    List ((E → Bool) × List E) → List E → Option (List E × List (List E))
  | [], buf => some (buf, [])
  | c :: rest, buf =>
    match handleEventCycle c.1 c.2 buf with
    | none => none
    | some (buf', tr) =>
      match runCycles rest buf' with
      | none => none
      | some (bufF, trs) => some (bufF, tr :: trs)

/-! ### Closed form of Phase 1 -/

/-- The entries Phase 1 re-appends, in order: the entries of `l` that are
unclaimed and whose index (counting from `i`) is `≥ thr`. -/
def keptFrom {E : Type} (handle_event : E → Bool) (thr : Int) :
    Nat → List E → List E
  | _, [] => []
  | i, e :: rest =>
    if handle_event e then keptFrom handle_event thr (i + 1) rest
    else if thr ≤ (i : Int) then e :: keptFrom handle_event thr (i + 1) rest
    else keptFrom handle_event thr (i + 1) rest

theorem phase1Loop_eq {E : Type} (h : E → Bool) (thr : Int) (l : List E) :
    ∀ (i : Nat) (acc : List E),
      phase1Loop h thr l.length i (l ++ acc) =
        some (acc ++ keptFrom h thr i l, l) := by
  induction l with
  | nil => intro i acc; simp [phase1Loop, keptFrom]
  | cons e rest ih =>
    intro i acc
    simp only [List.length_cons, List.cons_append, phase1Loop]
    by_cases hc : h e
    · simp only [hc, if_true, ih (i + 1) acc, keptFrom, if_true]
    · by_cases ht : thr ≤ (i : Int)
      · have harr : rest ++ acc ++ [e] = rest ++ (acc ++ [e]) := by
          simp [List.append_assoc]
        simp only [hc, if_false, ht, if_true, harr, ih (i + 1) (acc ++ [e]),
          keptFrom, Bool.false_eq_true, List.append_assoc, List.singleton_append]
      · simp only [hc, if_false, ht, if_true, ih (i + 1) acc, keptFrom,
          Bool.false_eq_true]

theorem phase2Loop_eq {E : Type} (h : E → Bool) (polled : List E) :
    ∀ buf : List E,
      phase2Loop h polled buf = (buf ++ polled.filter (fun e => !h e), polled) := by
  induction polled with
  | nil => intro buf; simp [phase2Loop]
  | cons e rest ih =>
    intro buf
    by_cases hc : h e
    · simp [phase2Loop, hc, ih]
    · simp [phase2Loop, hc, ih, List.append_assoc]

/-- Closed form of a whole cycle: Phase 1 keeps the unclaimed backlog entries
with index `≥ len - 2000`, Phase 2 appends the unclaimed polled events, and
the delivery trace is the backlog followed by the polled events. -/
theorem handleEventCycle_eq {E : Type} (h : E → Bool) (polled buf : List E) :
    handleEventCycle h polled buf =
      some (keptFrom h ((buf.length : Int) - 2000) 0 buf
              ++ polled.filter (fun e => !h e),
            buf ++ polled) := by
  have h1 := phase1Loop_eq h ((buf.length : Int) - 2000) buf 0 []
  simp only [List.append_nil, List.nil_append] at h1
  simp [handleEventCycle, h1, phase2Loop_eq]

theorem keptFrom_sublist {E : Type} (h : E → Bool) (thr : Int) :
    ∀ (i : Nat) (l : List E), (keptFrom h thr i l).Sublist l := by
  intro i l
  induction l generalizing i with
  | nil => simp [keptFrom]
  | cons e rest ih =>
    simp only [keptFrom]
    by_cases hc : h e
    · simp only [hc, if_true]
      exact (ih (i + 1)).cons e
    · by_cases ht : thr ≤ (i : Int)
      · simp only [hc, if_false, ht, if_true, Bool.false_eq_true]
        exact (ih (i + 1)).cons₂ e
      · simp only [hc, if_false, ht, if_true, Bool.false_eq_true]
        exact (ih (i + 1)).cons e

theorem mem_keptFrom {E : Type} (h : E → Bool) (thr : Int) {x : E} :
    ∀ (i : Nat) (l : List E), x ∈ keptFrom h thr i l → x ∈ l ∧ h x = false := by
  intro i l
  induction l generalizing i with
  | nil => simp [keptFrom]
  | cons e rest ih =>
    simp only [keptFrom]
    by_cases hc : h e
    · simp only [hc, if_true]
      intro hx
      rcases ih (i + 1) hx with ⟨hm, hh⟩
      exact ⟨List.mem_cons_of_mem e hm, hh⟩
    · by_cases ht : thr ≤ (i : Int)
      · simp only [hc, if_false, ht, if_true, List.mem_cons, Bool.false_eq_true]
        rintro (rfl | hx)
        · exact ⟨Or.inl rfl, eq_false_of_ne_true hc⟩
        · rcases ih (i + 1) hx with ⟨hm, hh⟩
          exact ⟨Or.inr hm, hh⟩
      · simp only [hc, if_false, ht, if_true, Bool.false_eq_true]
        intro hx
        rcases ih (i + 1) hx with ⟨hm, hh⟩
        exact ⟨List.mem_cons_of_mem e hm, hh⟩

theorem keptFrom_length_le_sub {E : Type} (h : E → Bool) (thr : Int) :
    ∀ (i : Nat) (l : List E),
      (keptFrom h thr i l).length ≤ l.length - min l.length ((thr - (i : Int)).toNat) := by
  intro i l
  induction l generalizing i with
  | nil => simp [keptFrom]
  | cons e rest ih =>
    simp only [keptFrom, List.length_cons]
    have hih := ih (i + 1)
    have hle := (keptFrom_sublist h thr (i + 1) rest).length_le
    by_cases hc : h e
    · simp only [hc, if_true]
      push_cast at hih ⊢
      omega
    · by_cases ht : thr ≤ (i : Int)
      · simp only [hc, if_false, ht, if_true, List.length_cons, Bool.false_eq_true]
        push_cast at hih ⊢
        omega
      · simp only [hc, if_false, ht, if_true, Bool.false_eq_true]
        push_cast at hih ⊢
        omega

/-- Phase 1 of a cycle retains at most `min len 2000` backlog entries. -/
theorem keptFrom_capacity {E : Type} (h : E → Bool) (l : List E) :
    (keptFrom h ((l.length : Int) - 2000) 0 l).length ≤ min l.length 2000 := by
  have := keptFrom_length_le_sub h ((l.length : Int) - 2000) 0 l
  omega

/-- With an always-false handler, Phase 1 keeps exactly the entries with
index `≥ thr`, i.e. drops the first `thr - i` entries. -/
theorem keptFrom_false {E : Type} (thr : Int) :
    ∀ (i : Nat) (l : List E),
      keptFrom (fun _ => false) thr i l = l.drop (thr - (i : Int)).toNat := by
  intro i l
  induction l generalizing i with
  | nil => simp [keptFrom]
  | cons e rest ih =>
    simp only [keptFrom, Bool.false_eq_true, if_false]
    by_cases ht : thr ≤ (i : Int)
    · have h0 : (thr - (i : Int)).toNat = 0 := by omega
      have h1 : (thr - ((i : Nat) + 1 : Int)).toNat = 0 := by omega
      rw [if_pos ht, ih (i + 1)]
      push_cast
      rw [h1, h0]
      simp
    · have h1 : (thr - (i : Int)).toNat = (thr - ((i : Nat) + 1 : Int)).toNat + 1 := by
        omega
      rw [if_neg ht, ih (i + 1)]
      push_cast
      rw [h1]
      simp

/-! ### Spec-side description of the two-phase algorithm (for refinement) -/

/-- Written from the spec §4.3's words: with `drop_threshold = len - 2000`,
Phase 1 keeps exactly the unclaimed entries whose index `i` (from 0,
oldest-first) satisfies `i ≥ drop_threshold`, in original order. -/
def specPhase1Kept {E : Type} (handler : E → Bool) (len : Nat) (buf : List E) :
    List E :=
  let dropThreshold : Int := (len : Int) - 2000
  ((buf.enum).filter
    (fun p => !handler p.2 && decide (dropThreshold ≤ (p.1 : Int)))).map Prod.snd

/-- Written from the spec §4.3's words: a whole `DispatchEvents` cycle keeps
the Phase-1 survivors followed by the unclaimed fresh events (no capacity
check), and delivers the backlog oldest-first followed by the fresh events in
arrival order. -/
def specCycle {E : Type} (handler : E → Bool) (fresh buf : List E) :
    List E × List E :=
  (specPhase1Kept handler buf.length buf ++ fresh.filter (fun e => !handler e),
   buf ++ fresh)

theorem keptFrom_eq_enumFrom {E : Type} (h : E → Bool) (thr : Int) :
    ∀ (i : Nat) (l : List E),
      keptFrom h thr i l =
        ((List.enumFrom i l).filter
          (fun p => !h p.2 && decide (thr ≤ (p.1 : Int)))).map Prod.snd := by
  intro i l
  induction l generalizing i with
  | nil => simp [keptFrom]
  | cons e rest ih =>
    simp only [keptFrom, List.enumFrom, List.filter]
    by_cases hc : h e
    · simp only [hc, if_true, Bool.not_true, Bool.false_and]
      exact ih (i + 1)
    · by_cases ht : thr ≤ (i : Int)
      · simp only [hc, if_false, ht, if_true, Bool.not_false, Bool.true_and,
          decide_eq_true_eq, Bool.false_eq_true, decide_True, List.map]
        rw [ih (i + 1)]
      · simp only [hc, if_false, ht, if_true, Bool.not_false, Bool.true_and,
          Bool.false_eq_true, decide_False]
        exact ih (i + 1)

/-- C1: For every `handleUiEvents` cycle, the owner loop runs the two-phase
delivery algorithm exactly as the spec states it: with `len` the buffer length
at cycle start and `drop_threshold = len - 2000`, Phase 1 offers the `len`
existing entries to the handler oldest-first, discards claimed entries,
re-appends an unclaimed entry iff its index `i ≥ drop_threshold` (otherwise it
is permanently dropped); Phase 2 then offers each freshly polled event in
arrival order and appends every unclaimed one with no capacity check. -/
theorem claim_C1 {E : Type} (handler : E → Bool) (polled buf : List E) :
    handleEventCycle handler polled buf = some (specCycle handler polled buf) := by
  rw [handleEventCycle_eq]
  unfold specCycle specPhase1Kept
  rw [List.enum, ← keptFrom_eq_enumFrom]

/-- C2: At the end of Phase 1 the buffer retains at most `min len 2000`
entries; events polled in Phase 2 are appended with no cap and can push the
length past 2000 until the next cycle; and after 2001 unclaimed events, one
further cycle with an always-false handler and no fresh events leaves exactly
2000 entries, evicting precisely the single oldest entry. -/
theorem claim_C2 :
    (∀ (E : Type) (handler : E → Bool) (buf buf1 tr : List E),
        phase1Loop handler ((buf.length : Int) - 2000) buf.length 0 buf =
          some (buf1, tr) →
        buf1.length ≤ min buf.length 2000) ∧
    (∀ (E : Type) (l : List E), l.length = 2001 →
        handleEventCycle (fun _ => false) [] l = some (l.drop 1, l) ∧
        (l.drop 1).length = 2000) ∧
    (∀ (E : Type) (l : List E) (e : E), l.length = 2000 →
        handleEventCycle (fun _ => false) [e] l = some (l ++ [e], l ++ [e]) ∧
        (l ++ [e]).length = 2001) := by
  refine ⟨?_, ?_, ?_⟩
  · intro E handler buf buf1 tr hrun
    have h1 := phase1Loop_eq handler ((buf.length : Int) - 2000) buf 0 []
    simp only [List.append_nil, List.nil_append] at h1
    rw [h1, Option.some.injEq, Prod.mk.injEq] at hrun
    rw [← hrun.1]
    exact keptFrom_capacity handler buf
  · intro E l hlen
    constructor
    · rw [handleEventCycle_eq, keptFrom_false, hlen]
      norm_num
    · simp [hlen]
  · intro E l e hlen
    constructor
    · rw [handleEventCycle_eq, keptFrom_false, hlen]
      norm_num
    · simp [hlen]

theorem claim_C2_witness :
    ((List.range 3).length ≤ min (List.range 3).length 2000) ∧
    (handleEventCycle (fun _ => false) [] (List.range 2001) =
        some ((List.range 2001).drop 1, List.range 2001) ∧
      ((List.range 2001).drop 1).length = 2000) ∧
    (handleEventCycle (fun _ => false) [99] (List.range 2000) =
        some (List.range 2000 ++ [99], List.range 2000 ++ [99]) ∧
      (List.range 2000 ++ [99]).length = 2001) :=
  ⟨claim_C2.1 Nat (fun _ => false) (List.range 3) (List.range 3) (List.range 3)
      (by decide),
   claim_C2.2.1 Nat (List.range 2001) (by simp),
   claim_C2.2.2 Nat (List.range 2000) 99 (by simp)⟩

/-- C3: the buffer stays an oldest-first sequence: Phase 1 delivers the
backlog in order, the re-appended unclaimed entries keep their relative order
(a sublist of the old backlog), unclaimed fresh events land after them, and
the whole delivery trace of a cycle is backlog-then-fresh; in the concrete
E1,E2,E3 scenario a cycle-2 handler claiming exactly E2 observes E1 before E2
before E3. -/
theorem claim_C3 :
    (∀ (E : Type) (handler : E → Bool) (polled buf : List E), ∃ kept : List E,
        handleEventCycle handler polled buf =
          some (kept ++ polled.filter (fun e => !handler e), buf ++ polled) ∧
        kept.Sublist buf) ∧
    (handleEventCycle (fun _ => false) [1, 2, 3] ([] : List Nat) =
        some ([1, 2, 3], [1, 2, 3]) ∧
      handleEventCycle (fun e => e == 2) [] [1, 2, 3] =
        some ([1, 3], [1, 2, 3])) := by
  refine ⟨?_, by decide, by decide⟩
  intro E handler polled buf
  exact ⟨keptFrom handler ((buf.length : Int) - 2000) 0 buf,
    handleEventCycle_eq handler polled buf,
    keptFrom_sublist handler _ 0 buf⟩

/-- C10: the `pop_front().unwrap()` of Phase 1 never panics: a cycle always
completes (the Phase-1 loop runs exactly `len` iterations and the list is
non-empty at every pop). -/
theorem claim_C10 {E : Type} (handler : E → Bool) (polled buf : List E) :
    (handleEventCycle handler polled buf).isSome := by
  rw [handleEventCycle_eq]
  rfl

/-- Every entry of the buffer left by a cycle was unclaimed by that cycle's
handler, and came either from the old backlog or from the polled events. -/
theorem mem_cycle_buffer {E : Type} {handler : E → Bool} {polled buf buf' tr : List E}
    (hrun : handleEventCycle handler polled buf = some (buf', tr)) :
    ∀ x ∈ buf', (x ∈ buf ∨ x ∈ polled) ∧ handler x = false := by
  rw [handleEventCycle_eq, Option.some.injEq, Prod.mk.injEq] at hrun
  intro x hx
  rw [← hrun.1] at hx
  rcases List.mem_append.1 hx with hk | hf
  · rcases mem_keptFrom handler _ 0 buf hk with ⟨hm, hh⟩
    exact ⟨Or.inl hm, hh⟩
  · rcases List.mem_filter.1 hf with ⟨hm, hh⟩
    simp only [Bool.not_eq_true'] at hh
    exact ⟨Or.inr hm, hh⟩

/-- If an event value is absent from the buffer and from every later cycle's
polled events, it is never delivered again and never re-enters the buffer. -/
theorem runCycles_not_mem {E : Type} (e : E) :
    ∀ (cycles : List ((E → Bool) × List E)) (buf bufF : List E)
      (trs : List (List E)),
      e ∉ buf → (∀ c ∈ cycles, e ∉ c.2) →
      runCycles cycles buf = some (bufF, trs) →
      (∀ t ∈ trs, e ∉ t) ∧ e ∉ bufF := by
  intro cycles
  induction cycles with
  | nil =>
    intro buf bufF trs hbuf _ hrun
    rw [runCycles, Option.some.injEq, Prod.mk.injEq] at hrun
    rw [← hrun.1, ← hrun.2] at *
    exact ⟨by simp, hbuf⟩
  | cons c rest ih =>
    intro buf bufF trs hbuf hfresh hrun
    rw [runCycles] at hrun
    rcases hcyc : handleEventCycle c.1 c.2 buf with _ | ⟨buf', tr⟩
    · rw [hcyc] at hrun; exact absurd hrun (by simp)
    rw [hcyc] at hrun
    dsimp only at hrun
    rcases hrest : runCycles rest buf' with _ | ⟨bufF', trs'⟩
    · rw [hrest] at hrun; exact absurd hrun (by simp)
    rw [hrest] at hrun
    dsimp only at hrun
    rw [Option.some.injEq, Prod.mk.injEq] at hrun
    have hbuf' : e ∉ buf' := fun hx =>
      ((mem_cycle_buffer hcyc e hx).1).elim hbuf (hfresh c (by simp))
    have htr : e ∉ tr := by
      rw [handleEventCycle_eq, Option.some.injEq, Prod.mk.injEq] at hcyc
      rw [← hcyc.2]
      intro hx
      exact (List.mem_append.1 hx).elim hbuf (hfresh c (by simp))
    have := ih buf' bufF' trs' hbuf' (fun c' hc' => hfresh c' (by simp [hc'])) hrest
    rw [← hrun.1, ← hrun.2]
    refine ⟨?_, this.2⟩
    intro t ht
    rcases List.mem_cons.1 ht with rfl | ht'
    · exact htr
    · exact this.1 t ht'

/-- C4: once the handler of some `handleUiEvents` cycle claims an event value,
that value is removed from the buffer and (as long as the resource never polls
an equal fresh event again) is never delivered to any later cycle's handler
nor present in any later buffer. -/
theorem claim_C4 {E : Type} (e : E) (handler : E → Bool) (polled buf : List E)
    (cycles : List ((E → Bool) × List E))
    (hclaim : handler e = true)
    (hfresh : ∀ c ∈ cycles, e ∉ c.2)
    (buf' tr bufF : List E) (trs : List (List E))
    (h1 : handleEventCycle handler polled buf = some (buf', tr))
    (h2 : runCycles cycles buf' = some (bufF, trs)) :
    e ∉ buf' ∧ (∀ t ∈ trs, e ∉ t) ∧ e ∉ bufF := by
  have hnot : e ∉ buf' := by
    intro hx
    have := (mem_cycle_buffer h1 e hx).2
    rw [hclaim] at this
    exact Bool.true_eq_false.mp this
  have := runCycles_not_mem e cycles buf' bufF trs hnot hfresh h2
  exact ⟨hnot, this.1, this.2⟩

theorem claim_C4_witness :
    (5 : Nat) ∉ [7] ∧ (∀ t ∈ [[7, 9]], (5 : Nat) ∉ t) ∧ (5 : Nat) ∉ [7, 9] :=
  claim_C4 (E := Nat) 5 (fun x => x == 5) [5] [5, 7] [(fun _ => false, [9])]
    (by decide) (by decide) [7] [5, 7, 5] [7, 9] [[7, 9]] (by decide) (by decide)

/-! ## Window registry (the `CreateWindow` arm of `sdl_handler`)

`C` is the abstract type of `WindowCanvas` values; `canvasId` models
`canvas.window().id()`, the resource-assigned window id.  The registry
`windows : HashMap<u32, WindowCanvas>` is modelled as an association list
with unique keys; `insertReg` models `HashMap::insert` (replacing any
existing binding of the key). -/

/-- Models `HashMap::insert`: bind `k` to `v`, replacing an existing binding. -/
def insertReg {C : Type} (k : Nat) (v : C) : List (Nat × C) → List (Nat × C)
  | [] => [(k, v)]
  | (k', v') :: rest =>
    if k = k' then (k, v) :: rest else (k', v') :: insertReg k v rest

/-- Models `HashMap::get`: the value bound to `k`, if any. -/
def lookupReg {C : Type} (k : Nat) : List (Nat × C) → Option C
  | [] => none
  | (k', v') :: rest => if k = k' then some v' else lookupReg k rest

/-- The `CreateWindow` arm of `sdl_handler` (src/lib.rs lines 36-53):
`factoryResult` is what the `create_window` callback returned.  If it is
`Some(canvas)`, the canvas is inserted into the registry under its
resource-assigned id and `Some(id)` is replied; otherwise the registry is
untouched and `None` is replied. -/
def createWindowArm {C : Type} (canvasId : C → Nat) (factoryResult : Option C)
    (windows : List (Nat × C)) : List (Nat × C) × Option Nat :=
  match factoryResult with
  | some canvas =>
    (insertReg (canvasId canvas) canvas windows, some (canvasId canvas))
  | none => (windows, none)

theorem lookupReg_insertReg_self {C : Type} (k : Nat) (v : C) :
    ∀ w : List (Nat × C), lookupReg k (insertReg k v w) = some v := by
  intro w
  induction w with
  | nil => simp [insertReg, lookupReg]
  | cons p rest ih =>
    by_cases hk : k = p.1
    · simp [insertReg, hk, lookupReg]
    · simp only [insertReg, hk, if_false, lookupReg, ih]

theorem lookupReg_insertReg_ne {C : Type} (k k' : Nat) (v : C) (hne : k' ≠ k) :
    ∀ w : List (Nat × C), lookupReg k' (insertReg k v w) = lookupReg k' w := by
  intro w
  induction w with
  | nil => simp [insertReg, lookupReg, hne]
  | cons p rest ih =>
    by_cases hk : k = p.1
    · subst hk
      simp [insertReg, lookupReg, hne]
    · simp only [insertReg, hk, if_false]
      by_cases hk' : k' = p.1
      · simp [lookupReg, hk']
      · simp only [lookupReg, hk', if_false, ih]

/-- C5: `createWindow` replies `Some(id)` iff the factory produced a window,
which is then registered under its resource-assigned id; it replies `None`
iff the factory declined (registry untouched); the arm never removes
existing entries under other keys; and two successful calls whose canvases
carry distinct resource-assigned ids yield two distinct non-`None` ids, both
still reachable in the registry afterwards. -/
theorem claim_C5 {C : Type} (canvasId : C → Nat) (windows : List (Nat × C)) :
    (∀ fr : Option C,
        (createWindowArm canvasId fr windows).2.isSome = fr.isSome) ∧
    (∀ c : C,
        (createWindowArm canvasId (some c) windows).2 = some (canvasId c) ∧
        lookupReg (canvasId c) (createWindowArm canvasId (some c) windows).1 =
          some c) ∧
    (createWindowArm canvasId none windows = (windows, none)) ∧
    (∀ (c : C) (k : Nat), k ≠ canvasId c →
        lookupReg k (createWindowArm canvasId (some c) windows).1 =
          lookupReg k windows) ∧
    (∀ c1 c2 : C, canvasId c1 ≠ canvasId c2 →
        ∀ w1 r1 w2 r2,
          createWindowArm canvasId (some c1) windows = (w1, r1) →
          createWindowArm canvasId (some c2) w1 = (w2, r2) →
          r1 = some (canvasId c1) ∧ r2 = some (canvasId c2) ∧ r1 ≠ r2 ∧
          lookupReg (canvasId c1) w2 = some c1 ∧
          lookupReg (canvasId c2) w2 = some c2) := by
  refine ⟨?_, ?_, rfl, ?_, ?_⟩
  · intro fr
    cases fr <;> rfl
  · intro c
    exact ⟨rfl, lookupReg_insertReg_self (canvasId c) c windows⟩
  · intro c k hk
    exact lookupReg_insertReg_ne (canvasId c) k c hk windows
  · intro c1 c2 hne w1 r1 w2 r2 h1 h2
    rw [createWindowArm, Prod.mk.injEq] at h1 h2
    refine ⟨h1.2.symm, h2.2.symm, ?_, ?_, ?_⟩
    · rw [← h1.2, ← h2.2]
      simp [hne]
    · rw [← h2.1, ← h1.1,
        lookupReg_insertReg_ne (canvasId c2) (canvasId c1) c2 hne]
      exact lookupReg_insertReg_self (canvasId c1) c1 windows
    · rw [← h2.1]
      exact lookupReg_insertReg_self (canvasId c2) c2 w1

theorem claim_C5_witness :
    ((createWindowArm id (some 3) []).2.isSome = (some 3 : Option Nat).isSome) ∧
    ((createWindowArm id (some 3) ([] : List (Nat × Nat))).2 = some 3 ∧
      lookupReg 3 (createWindowArm id (some 3) ([] : List (Nat × Nat))).1 =
        some 3) ∧
    (createWindowArm id (none : Option Nat) [] = ([], none)) ∧
    (lookupReg 7 (createWindowArm id (some 3) ([(7, 7)] : List (Nat × Nat))).1 =
      lookupReg 7 [(7, 7)]) ∧
    ((some 3 : Option Nat) = some 3 ∧ (some 4 : Option Nat) = some 4 ∧
      (some 3 : Option Nat) ≠ some 4 ∧
      lookupReg 3 ([(3, 3), (4, 4)] : List (Nat × Nat)) = some 3 ∧
      lookupReg 4 ([(3, 3), (4, 4)] : List (Nat × Nat)) = some 4) := by
  have h := claim_C5 (C := Nat) id []
  have h7 := claim_C5 (C := Nat) id [(7, 7)]
  exact ⟨h.1 (some 3), h.2.1 3, h.2.2.1, h7.2.2.2.1 3 7 (by decide),
    h.2.2.2.2 3 4 (by decide) [(3, 3)] (some 3) [(3, 3), (4, 4)] (some 4)
      (by decide) (by decide)⟩

/-! ## The owner loop over the command channel

The owner-local state of `sdl_handler` (src/lib.rs lines 31-32), and the
message protocol (lines 15-20).  Callback payloads are abstracted at the
collaborator boundary: a `Lambda` work item is identified by an opaque tag
(its effect on the foreign resource is outside the model), a `CreateWindow`
message carries the factory's result, and a `HandleEvent` message carries the
handler together with the events its poll will return. -/

structure OwnerState (E C : Type) where
  windows : List (Nat × C)
  unhandled_events : List E

inductive Sdl2Message (E C : Type) where
  | lambda (work : Nat)
  | createWindow (factoryResult : Option C)
  | handleEvent (handler : E → Bool) (polled : List E)
  | exit

/-- Outcome of one run of the `for message in rx` loop of `sdl_handler` over
the messages `msgs` it receives: the final owner state, the messages it
executed in order, the messages left unprocessed (and therefore dropped with
the receiver when the loop breaks at `Exit`), and whether the loop ended via
`Exit` (`true`) or by exhausting the channel (`false`). -/
structure LoopResult (E C : Type) where
  final : OwnerState E C
  executed : List (Sdl2Message E C)
  dropped : List (Sdl2Message E C)
  exited : Bool

/-- The `for message in rx { match message ... } ` loop of `sdl_handler`
(src/lib.rs lines 33-90).  `Exit => break` stops without draining the queue.
`none` models the owner thread panicking inside a `HandleEvent` cycle (which
`claim_C10` rules out). -/
def runLoop {E C : Type} (canvasId : C → Nat) :
    List (Sdl2Message E C) → OwnerState E C → Option (LoopResult E C)
  | [], st => some ⟨st, [], [], false⟩
  | m :: rest, st =>
    match m with
    | .exit => some ⟨st, [], rest, true⟩
    | .lambda w =>
      (runLoop canvasId rest st).map
        (fun r => { r with executed := .lambda w :: r.executed })
    | .createWindow fr =>
      (runLoop canvasId rest
          { st with windows := (createWindowArm canvasId fr st.windows).1 }).map
        (fun r => { r with executed := .createWindow fr :: r.executed })
    | .handleEvent h polled =>
      match handleEventCycle h polled st.unhandled_events with
      | none => none
      | some res =>
        (runLoop canvasId rest { st with unhandled_events := res.1 }).map
          (fun r => { r with executed := .handleEvent h polled :: r.executed })

/-- Whether a send on the command channel can still succeed once the owner
loop has consumed `msgs`: the receiver is alive iff the loop has neither
returned (breaking at `Exit`) nor panicked.  Models `mpsc::Sender::send`
failing exactly when the `Receiver` has been dropped. -/
def ownerAliveAfter {E C : Type} (canvasId : C → Nat)
    (msgs : List (Sdl2Message E C)) (st : OwnerState E C) : Bool :=
  match runLoop canvasId msgs st with
  | some r => !r.exited
  | none => false

/-! ## The `Sdl2Mt` handle operations (src/lib.rs lines 93-171) -/

/-- The single public error kind (src/lib.rs line 97). -/
structure UiThreadExited where

/-- The helper `map_ute` (src/lib.rs lines 99-103): converts any error into
`UiThreadExited`. -/
def map_ute {T : Type} (_ : T) : UiThreadExited := ⟨⟩

inductive SendError where
  | disconnected

inductive RecvError where
  | disconnected

/-- Models `mpsc::Sender::send` on the command channel: fails iff the owner
loop (the receiver) has terminated. -/
def channelSend (ownerAlive : Bool) : Except SendError Unit :=
  if ownerAlive then .ok () else .error .disconnected

/-- Models the blocking `recv` on a one-shot reply channel: yields the reply
if the owner executed the message and replied; fails once the reply sender is
dropped without a send (the message was dropped or the loop died). -/
def replyRecv {A : Type} (reply : Option A) : Except RecvError A :=
  match reply with
  | some a => .ok a
  | none => .error .disconnected

/-- Embeds `Sdl2Mt::create_window` (src/lib.rs lines 142-146):
`send(...).map_err(map_ute)?` then `rx.recv().map_err(map_ute)`.
`reply` is the id option the owner sent back, or `none` if no reply ever
arrives. -/
def create_window (ownerAlive : Bool) (reply : Option (Option Nat)) :
    Except UiThreadExited (Option Nat) :=
  match channelSend ownerAlive with
  | .error e => .error (map_ute e)
  | .ok _ =>
    match replyRecv reply with
    | .error e => .error (map_ute e)
    | .ok v => .ok v

/-- Embeds `Sdl2Mt::create_simple_window` (src/lib.rs lines 115-133): calls
`create_window` with a factory that always returns `Some`, then
`.map(|id| id.unwrap())`; the outer `none` models the `unwrap` panic on a
`None` id. -/
def create_simple_window (ownerAlive : Bool) (reply : Option (Option Nat)) :
    Option (Except UiThreadExited Nat) :=
  match create_window ownerAlive reply with
  | .error e => some (.error e)
  | .ok (some id) => some (.ok id)
  | .ok none => none

/-- Embeds `Sdl2Mt::run_on_ui_thread` (src/lib.rs lines 152-154):
`self.0.send(Lambda(lambda)).map_err(map_ute)` — a bare send, no reply
channel. -/
def run_on_ui_thread (ownerAlive : Bool) (_work : Nat) :
    Except UiThreadExited Unit :=
  match channelSend ownerAlive with
  | .error e => .error (map_ute e)
  | .ok _ => .ok ()

/-- Embeds `Sdl2Mt::handle_ui_events` (src/lib.rs lines 160-164): send, then block
on the unit reply. -/
def handle_ui_events (ownerAlive : Bool) (reply : Option Unit) :
    Except UiThreadExited Unit :=
  match channelSend ownerAlive with
  | .error e => .error (map_ute e)
  | .ok _ =>
    match replyRecv reply with
    | .error e => .error (map_ute e)
    | .ok v => .ok v

/-- Embeds `Sdl2Mt::exit` (src/lib.rs lines 168-170):
`self.0.send(Exit).map_err(map_ute)`. -/
def exit (ownerAlive : Bool) : Except UiThreadExited Unit :=
  match channelSend ownerAlive with
  | .error e => .error (map_ute e)
  | .ok _ => .ok ()

/-- C6: every handle operation fails with the single error kind
`UiThreadExited` — it neither panics nor blocks forever — whenever the
command send fails (owner loop terminated) or the reply cannot be received
(message dropped before execution); in particular, after the owner loop has
processed a first `Exit` and closed the channel, a second `exit` on a
distinct clone returns this error. -/
theorem claim_C6 :
    (∀ w, run_on_ui_thread false w = .error ⟨⟩) ∧
    (∀ reply, create_window false reply = .error ⟨⟩) ∧
    (∀ reply, create_simple_window false reply = some (.error ⟨⟩)) ∧
    (∀ reply, handle_ui_events false reply = .error ⟨⟩) ∧
    (exit false = .error ⟨⟩) ∧
    (create_window true none = .error ⟨⟩ ∧
      handle_ui_events true none = .error ⟨⟩) ∧
    (exit true = .ok () ∧
      ∀ (E C : Type) (canvasId : C → Nat) (st : OwnerState E C),
        runLoop canvasId [Sdl2Message.exit] st = some ⟨st, [], [], true⟩ ∧
        exit (ownerAliveAfter canvasId [Sdl2Message.exit] st) = .error ⟨⟩) :=
  ⟨fun _ => rfl, fun _ => rfl, fun reply => by cases reply <;> rfl,
   fun _ => rfl, rfl, ⟨rfl, rfl⟩, rfl, fun _ _ _ _ => ⟨rfl, rfl⟩⟩

/-- C7: `run_on_ui_thread` is fire-and-forget: it performs exactly the
command send (its result is the mapped send result, with no reply channel
involved), returning `Ok` iff the send succeeds and `Err(UiThreadExited)`
iff it fails; it can return `Ok` for work the owner loop never executes
(here: a lambda queued behind an `Exit`). -/
theorem claim_C7 :
    (∀ (alive : Bool) (w : Nat),
        run_on_ui_thread alive w =
          Except.mapError map_ute ((channelSend alive).map (fun _ => ()))) ∧
    (∀ w, run_on_ui_thread true w = .ok ()) ∧
    (∀ w, run_on_ui_thread false w = .error ⟨⟩) ∧
    (∀ (E C : Type) (canvasId : C → Nat) (st : OwnerState E C) (w : Nat),
        run_on_ui_thread true w = .ok () ∧
        runLoop canvasId [Sdl2Message.exit, Sdl2Message.lambda w] st =
          some ⟨st, [], [Sdl2Message.lambda w], true⟩) :=
  ⟨fun alive _ => by cases alive <;> rfl, fun _ => rfl, fun _ => rfl,
   fun _ _ _ _ _ => ⟨rfl, rfl⟩⟩

/-- A run of the loop that never sees an `Exit` drops nothing and does not
terminate via `Exit`. -/
theorem runLoop_no_exit {E C : Type} (canvasId : C → Nat) :
    ∀ (msgs : List (Sdl2Message E C)) (st : OwnerState E C) (r : LoopResult E C),
      Sdl2Message.exit ∉ msgs → runLoop canvasId msgs st = some r →
      r.dropped = [] ∧ r.exited = false := by
  intro msgs
  induction msgs with
  | nil =>
    intro st r _ hrun
    rw [runLoop, Option.some.injEq] at hrun
    rw [← hrun]
    exact ⟨rfl, rfl⟩
  | cons m rest ih =>
    intro st r hmem hrun
    have hmem' : Sdl2Message.exit ∉ rest := fun hx => hmem (List.mem_cons_of_mem m hx)
    cases m with
    | exit => exact absurd (List.mem_cons_self _ _) hmem
    | lambda w =>
      rw [runLoop] at hrun
      rcases Option.map_eq_some'.1 hrun with ⟨r', hr', rfl⟩
      exact ih st r' hmem' hr'
    | createWindow fr =>
      rw [runLoop] at hrun
      rcases Option.map_eq_some'.1 hrun with ⟨r', hr', rfl⟩
      exact ih _ r' hmem' hr'
    | handleEvent h polled =>
      rw [runLoop] at hrun
      rcases hcyc : handleEventCycle h polled st.unhandled_events with _ | res
      · rw [hcyc] at hrun; exact absurd hrun (by simp)
      rw [hcyc] at hrun
      dsimp only at hrun
      rcases Option.map_eq_some'.1 hrun with ⟨r', hr', rfl⟩
      exact ih _ r' hmem' hr'

/-- The loop executes a subsequence of the messages it receives, in order. -/
theorem runLoop_executed_sublist {E C : Type} (canvasId : C → Nat) :
    ∀ (msgs : List (Sdl2Message E C)) (st : OwnerState E C) (r : LoopResult E C),
      runLoop canvasId msgs st = some r → r.executed.Sublist msgs := by
  intro msgs
  induction msgs with
  | nil =>
    intro st r hrun
    rw [runLoop, Option.some.injEq] at hrun
    rw [← hrun]
  | cons m rest ih =>
    intro st r hrun
    cases m with
    | exit =>
      rw [runLoop, Option.some.injEq] at hrun
      rw [← hrun]
      exact List.nil_sublist _
    | lambda w =>
      rw [runLoop] at hrun
      rcases Option.map_eq_some'.1 hrun with ⟨r', hr', rfl⟩
      exact (ih st r' hr').cons₂ _
    | createWindow fr =>
      rw [runLoop] at hrun
      rcases Option.map_eq_some'.1 hrun with ⟨r', hr', rfl⟩
      exact (ih _ r' hr').cons₂ _
    | handleEvent h polled =>
      rw [runLoop] at hrun
      rcases hcyc : handleEventCycle h polled st.unhandled_events with _ | res
      · rw [hcyc] at hrun; exact absurd hrun (by simp)
      rw [hcyc] at hrun
      dsimp only at hrun
      rcases Option.map_eq_some'.1 hrun with ⟨r', hr', rfl⟩
      exact (ih _ r' hr').cons₂ _

/-- Composition: a run that did not terminate continues through appended
messages. -/
theorem runLoop_append {E C : Type} (canvasId : C → Nat) :
    ∀ (a b : List (Sdl2Message E C)) (st : OwnerState E C) (r : LoopResult E C),
      runLoop canvasId a st = some r → r.exited = false →
      runLoop canvasId (a ++ b) st =
        (runLoop canvasId b r.final).map
          (fun r2 => ⟨r2.final, r.executed ++ r2.executed, r2.dropped, r2.exited⟩) := by
  intro a
  induction a with
  | nil =>
    intro b st r hrun _
    rw [runLoop, Option.some.injEq] at hrun
    rw [List.nil_append, ← hrun]
    rcases runLoop canvasId b st with _ | r2
    · rfl
    · rfl
  | cons m rest ih =>
    intro b st r hrun hex
    cases m with
    | exit =>
      rw [runLoop, Option.some.injEq] at hrun
      rw [← hrun] at hex
      exact absurd hex (by simp)
    | lambda w =>
      rw [runLoop] at hrun
      rcases Option.map_eq_some'.1 hrun with ⟨r', hr', rfl⟩
      rw [List.cons_append, runLoop, ih b st r' hr' hex]
      rcases runLoop canvasId b r'.final with _ | r2
      · rfl
      · rfl
    | createWindow fr =>
      rw [runLoop] at hrun
      rcases Option.map_eq_some'.1 hrun with ⟨r', hr', rfl⟩
      rw [List.cons_append, runLoop, ih b _ r' hr' hex]
      rcases runLoop canvasId b r'.final with _ | r2
      · rfl
      · rfl
    | handleEvent h polled =>
      rw [runLoop] at hrun
      rcases hcyc : handleEventCycle h polled st.unhandled_events with _ | res
      · rw [hcyc] at hrun; exact absurd hrun (by simp)
      rw [hcyc] at hrun
      dsimp only at hrun
      rcases Option.map_eq_some'.1 hrun with ⟨r', hr', rfl⟩
      rw [List.cons_append, runLoop, hcyc]
      dsimp only
      rw [ih b _ r' hr' hex]
      rcases runLoop canvasId b r'.final with _ | r2
      · rfl
      · rfl

/-- C9: once an `Exit` precedes other commands in the channel, the loop
breaks at the `Exit` without draining the queue, so the later commands are
never executed; `run_on_ui_thread` can therefore have returned `Ok` for a
lambda that never runs; and a caller blocked in `create_window` or
`handle_ui_events` behind the `Exit` is unblocked with `UiThreadExited`,
because its dropped message drops the one-shot reply sender and closes the
reply channel. -/
theorem claim_C9 {E C : Type} (canvasId : C → Nat)
    (q1 q2 : List (Sdl2Message E C)) (st : OwnerState E C) (w : Nat)
    (r : LoopResult E C)
    (hq : Sdl2Message.exit ∉ q1)
    (hrun : runLoop canvasId q1 st = some r) :
    runLoop canvasId (q1 ++ Sdl2Message.exit :: q2) st =
      some ⟨r.final, r.executed, q2, true⟩ ∧
    (Sdl2Message.lambda w ∉ q1 → Sdl2Message.lambda w ∉ r.executed) ∧
    run_on_ui_thread true w = .ok () ∧
    create_window true none = .error ⟨⟩ ∧
    handle_ui_events true none = .error ⟨⟩ := by
  have hex := (runLoop_no_exit canvasId q1 st r hq hrun).2
  refine ⟨?_, ?_, rfl, rfl, rfl⟩
  · rw [runLoop_append canvasId q1 (Sdl2Message.exit :: q2) st r hrun hex]
    simp [runLoop]
  · intro hw hmem
    exact hw ((runLoop_executed_sublist canvasId q1 st r hrun).mem hmem)

theorem claim_C9_witness :
    (runLoop (E := Nat) (C := Nat) id
        ([Sdl2Message.createWindow (some 3)] ++
          Sdl2Message.exit :: [Sdl2Message.lambda 7]) ⟨[], []⟩ =
      some ⟨⟨[(3, 3)], []⟩, [Sdl2Message.createWindow (some 3)],
            [Sdl2Message.lambda 7], true⟩) ∧
    (Sdl2Message.lambda 7 ∉
        ([Sdl2Message.createWindow (some 3)] : List (Sdl2Message Nat Nat)) →
      Sdl2Message.lambda 7 ∉
        ([Sdl2Message.createWindow (some 3)] : List (Sdl2Message Nat Nat))) ∧
    run_on_ui_thread true 7 = .ok () ∧
    create_window true none = .error ⟨⟩ ∧
    handle_ui_events true none = .error ⟨⟩ :=
  claim_C9 (E := Nat) (C := Nat) id [Sdl2Message.createWindow (some 3)]
    [Sdl2Message.lambda 7] ⟨[], []⟩ 7
    ⟨⟨[(3, 3)], []⟩, [Sdl2Message.createWindow (some 3)], [], false⟩
    (by simp) rfl

/-! ## Initialization designs -/

/-- A process-wide view of owner loops: `nextOwner` numbers the owner-loop
threads spawned so far (each has its own channel, registry and event buffer);
`sharedOwner` is the lazily-created singleton owner, if it exists. -/
structure InitWorld where
  nextOwner : Nat
  sharedOwner : Option Nat

/-- An `Sdl2Mt` value as held by a caller: a handle naming the owner loop whose
command-channel sender it wraps. -/
structure Handle where
  owner : Nat

/-- The function `init` as written in src/lib.rs lines 180-184: every call creates a
fresh channel and spawns a brand-new owner-loop thread (with its own fresh
registry and event buffer), returning a handle to that new owner. -/
def init (w : InitWorld) : InitWorld × Handle :=
  ({ w with nextOwner := w.nextOwner + 1 }, ⟨w.nextOwner⟩)

/-- Modelled from the spec: the conflicting process-wide lazily-initialized
singleton design that spec §9 reports alongside `init` (its code is not
under src/): the first initialization call creates the shared owner loop and
every later call returns a handle to that same owner. -/
def initSingleton (w : InitWorld) : InitWorld × Handle :=
  match w.sharedOwner with
  | some o => (w, ⟨o⟩)
  | none =>
    ({ nextOwner := w.nextOwner + 1, sharedOwner := some w.nextOwner },
     ⟨w.nextOwner⟩)

/-- C8: the two initialization designs are materially different: under the
per-call design of src/lib.rs two `init` calls yield handles to two distinct
independent owner loops, while under the spec-reported singleton design the
second call returns the very owner created by the first. -/
theorem claim_C8 (w : InitWorld) :
    ((init w).2.owner ≠ (init (init w).1).2.owner) ∧
    ((initSingleton (initSingleton w).1).2.owner = (initSingleton w).2.owner) := by
  constructor
  · simp [init]
  · rcases w with ⟨n, _ | o⟩ <;> simp [initSingleton]

end Sdl2MtModel
